import Mathlib

/-
  Verification development for the vexel-weaver string-art core
  (src/rust_core/src/lib.rs).

  Shallow embedding conventions:
  * u8 pixel intensities are `Fin 256`;
  * u32 quantities (canvas sizes, buffer indices) are `Nat`;
  * i32 segment-walk coordinates are `Int`; the `as u32` cast applied to
    them is modelled by `intToU32` (reduction mod 2^32);
  * f64 arithmetic (pin coordinates, crop geometry, scores) is modelled as
    exact real (resp. exact integer, for the integer-valued scores)
    arithmetic;
  * the globals `ORIGINAL_IMAGE` / `IMAGE_DATA` become an explicit
    `CoreState` value threaded through the public operations;
  * the external `image` crate (decoding, crop/resize/luma) is an injected
    capability record `Caps`;
  * fallible operations return their new state together with an
    `Except String` result, updating the state exactly at the points where
    the source writes its globals.
-/

namespace StringArt

/-- u8 pixel intensity, as in `GrayImage`'s `Luma<u8>` channel. -/
abbrev U8 := Fin 256

/-- Embeds `pub struct Pin { pub x: f64, pub y: f64 }` (f64 as ℝ). -/
structure Pin where
  x : ℝ
  y : ℝ

/-- Embeds `pub enum Shape { Circle, Square }`. -/
inductive Shape where
  | Circle : Shape
  | Square : Shape

/-- Embeds `generate_circular_pins`: center `(w/2, h/2)`, radius
`min (w/2) (h/2)`, pin `i` at angle `2*PI*i/num_pins`. -/
noncomputable def generate_circular_pins (num_pins : ℕ) (width height : ℝ) : List Pin :=
  (List.range num_pins).map (fun (i : ℕ) =>
    let center_x := width / 2
    let center_y := height / 2
    let radius := min (width / 2) (height / 2)
    let angle := 2 * Real.pi * (i : ℝ) / (num_pins : ℝ)
    { x := center_x + radius * Real.cos angle
      y := center_y + radius * Real.sin angle })

/-- Embeds `generate_square_pins`: pin `i` at perimeter arc length
`2*(w+h)*i/num_pins`, walking top, right, bottom, then left edge. -/
noncomputable def generate_square_pins (num_pins : ℕ) (width height : ℝ) : List Pin :=
  (List.range num_pins).map (fun (i : ℕ) =>
    let perimeter := 2 * (width + height)
    let distance := perimeter * (i : ℝ) / (num_pins : ℝ)
    if distance < width then
      { x := distance, y := 0 }
    else if distance < width + height then
      { x := width, y := distance - width }
    else if distance < 2 * width + height then
      { x := width - (distance - width - height), y := height }
    else
      { x := 0, y := height - (distance - 2 * width - height) })

/-- Embeds `generate_pins`: dispatches on the shape; the Rust function
returns `Ok` of the serialized pin list and has no error path of its own. -/
noncomputable def generate_pins (shape : Shape) (num_pins : ℕ) (width height : ℝ) :
    Except String (List Pin) :=
  Except.ok (match shape with
    | Shape.Circle => generate_circular_pins num_pins width height
    | Shape.Square => generate_square_pins num_pins width height)

/-- Modelled from the spec: the clockwise piecewise-linear point at arc
length `distance` along the rectangle boundary, walking top edge, right
edge, bottom edge, then left edge from the top-left corner. Spec-side
companion of `generate_square_pins` for the refinement claim C5. -/
noncomputable def squareArcPoint (width height distance : ℝ) : ℝ × ℝ :=
  if distance < width then (distance, 0)
  else if distance < width + height then (width, distance - width)
  else if distance < 2 * width + height then (width - (distance - width - height), height)
  else (0, height - (distance - 2 * width - height))

/-- Embeds the crate type `GrayImage`: a `width * height` row-major buffer
of u8 luma values (row `y`, column `x` at buffer index `y * width + x`). -/
structure GrayImage where
  width : ℕ
  height : ℕ
  data : List U8
deriving DecidableEq

/-- The `as u32` cast applied to the i32 walk coordinates `px`, `py`:
reduction modulo 2^32 (nonnegative representative). -/
def intToU32 (z : ℤ) : ℕ := (z % 4294967296).toNat

/-- Embeds `GrayImage::get_pixel_checked`: `none` outside
`[0,width) x [0,height)`, otherwise the buffer entry. -/
def get_pixel_checked (img : GrayImage) (x y : ℕ) : Option U8 :=
  if x < img.width ∧ y < img.height then img.data[y * img.width + x]? else none

/-- Embeds the in-place store through `GrayImage::get_pixel_mut_checked`:
writes the buffer entry when `(x, y)` is in bounds, else leaves the image
unchanged. -/
def set_pixel_checked (img : GrayImage) (x y : ℕ) (v : U8) : GrayImage :=
  if x < img.width ∧ y < img.height then
    { img with data := img.data.set (y * img.width + x) v }
  else img

/-- Embeds the iterator state advance of `line_drawing::WalkGrid`
(4-connected walk; yields while `ix <= nx && iy <= ny`, stepping in x when
`(2*ix+1)*ny < (2*iy+1)*nx`, else in y). `fuel` bounds the number of
yields; `walkGrid` supplies enough fuel for the full walk. -/
def walkAux (sx sy : ℤ) (nx ny : ℕ) : ℕ → ℤ × ℤ → ℕ → ℕ → List (ℤ × ℤ)
  | 0, _, _, _ => []
  | fuel + 1, p, ix, iy =>
    if ix ≤ nx ∧ iy ≤ ny then
      p ::
        (if (2 * ix + 1) * ny < (2 * iy + 1) * nx then
          walkAux sx sy nx ny fuel (p.1 + sx, p.2) (ix + 1) iy
        else
          walkAux sx sy nx ny fuel (p.1, p.2 + sy) ix (iy + 1))
    else []

/-- Embeds `line_drawing::WalkGrid::new` followed by full iteration:
`sign_x = dx.signum()`, `nx = dx.abs()` (and likewise for y), starting at
`start`. The walk yields exactly `nx + ny + 1` points. -/
def walkGrid (start stop : ℤ × ℤ) : List (ℤ × ℤ) :=
  let dx := stop.1 - start.1
  let dy := stop.2 - start.2
  walkAux dx.sign dy.sign dx.natAbs dy.natAbs (dx.natAbs + dy.natAbs + 1) start 0 0

/-- Embeds the inner scoring loop of `generate_string_art`: fold over the
walk's pixels, adding `255 - intensity` for each in-bounds pixel and
skipping out-of-bounds ones. The f64 accumulator is exact on these
integer values, so the score is modelled as a natural number. -/
def lineScore (img : GrayImage) (pts : List (ℤ × ℤ)) : ℕ :=
  pts.foldl (fun acc p =>
    match get_pixel_checked img (intToU32 p.1) (intToU32 p.2) with
    | some v => acc + (255 - v.val)
    | none => acc) 0

/-- Modelled from the spec: the score as the spec words it, the sum of
`255 - intensity` over the in-bounds visited pixels (out-of-bounds samples
dropped). Spec-side companion of `lineScore` for claim C3. -/
def specScore (img : GrayImage) (pts : List (ℤ × ℤ)) : ℕ :=
  ((pts.filterMap (fun p => get_pixel_checked img (intToU32 p.1) (intToU32 p.2))).map
    (fun v => 255 - v.val)).sum

/-- The score of candidate pin `j` from pin `current` (the walk of the
segment `pins[current] -> pins[j]`, scored by `lineScore`). -/
def scoreOf (img : GrayImage) (pins : List (ℤ × ℤ)) (current j : ℕ) : ℕ :=
  lineScore img (walkGrid (pins.getD current (0, 0)) (pins.getD j (0, 0)))

/-- One step of the candidate scan of `generate_string_art`: skip
`i == current_pin_index`, otherwise replace the running
`(best_next_pin_index, max_score)` pair exactly when the candidate's score
is strictly greater (`current_score > max_score`). -/
def candStep (img : GrayImage) (pins : List (ℤ × ℤ)) (current : ℕ) (st : ℕ × ℤ) (i : ℕ) :
    ℕ × ℤ :=
  if i = current then st
  else if st.2 < (scoreOf img pins current i : ℤ) then (i, (scoreOf img pins current i : ℤ))
  else st

/-- The full candidate scan: fold `candStep` over all pin indices in
ascending order, starting from `best_next_pin_index = 0`,
`max_score = -1.0`. -/
def selectBest (img : GrayImage) (pins : List (ℤ × ℤ)) (current : ℕ) : ℕ × ℤ :=
  (List.range pins.length).foldl (candStep img pins current) (0, -1)

/-- Embeds `(pixel[0] as u16 + 150).min(255) as u8`: the u16 sum is taken
mod 2^16, capped at 255, and the final u8 cast is exact since the cap is
below 256. -/
def erasePixel (v : U8) : U8 :=
  ⟨min ((v.val + 150) % 65536) 255, by omega⟩

/-- One iteration of the erasure loop: if the walk point is in bounds
(`get_pixel_mut_checked` returns a pixel) brighten it via `erasePixel`,
else leave the image unchanged. -/
def eraseStep (im : GrayImage) (p : ℤ × ℤ) : GrayImage :=
  match get_pixel_checked im (intToU32 p.1) (intToU32 p.2) with
  | some v => set_pixel_checked im (intToU32 p.1) (intToU32 p.2) (erasePixel v)
  | none => im

/-- Embeds the erasure loop of `generate_string_art`: brighten every
in-bounds pixel visited by the walk `pts` via `erasePixel`, skipping
out-of-bounds points. -/
def eraseLine (img : GrayImage) (pts : List (ℤ × ℤ)) : GrayImage :=
  pts.foldl eraseStep img

/-- One iteration of the main loop of `generate_string_art`: pick the best
next pin from `current_pin_index`, append it to the sequence, erase the
winning segment, and move to it. The planner's pins carry the i32
coordinates produced by the source's `as i32` casts. -/
def planStep (pins : List (ℤ × ℤ)) (st : GrayImage × ℕ × List ℕ) : GrayImage × ℕ × List ℕ :=
  let img := st.1
  let current := st.2.1
  let path := st.2.2
  let best := (selectBest img pins current).1
  let img2 := eraseLine img (walkGrid (pins.getD current (0, 0)) (pins.getD best (0, 0)))
  (img2, best, path ++ [best])

/-- Embeds the decoded `DynamicImage` kept in `ORIGINAL_IMAGE`: dimensions
plus an abstract pixel payload. -/
structure SourceImage where
  width : ℕ
  height : ℕ
  pixels : List ℕ
deriving DecidableEq

/-- The two global mutexes `ORIGINAL_IMAGE` and `IMAGE_DATA`, made an
explicit state value. -/
structure CoreState where
  original : Option SourceImage
  imageData : Option GrayImage
deriving DecidableEq

/-- The external `image` crate capabilities consumed by `process_image`:
`decode` embeds `load_from_memory`, and `render img cx cy cw ch canvasW
canvasH` embeds `crop_imm` + `resize_exact(_, _, Triangle)` + `to_luma8`
on the cropped rectangle. -/
structure Caps where
  decode : List ℕ → Except String SourceImage
  render : SourceImage → ℕ → ℕ → ℕ → ℕ → ℕ → ℕ → GrayImage

/-- The `as u32` cast applied to the f64 crop rectangle fields: truncation
toward zero with saturation into `[0, 2^32)` (for the nonnegative reals it
is applied to, truncation is the floor). -/
noncomputable def realToU32 (x : ℝ) : ℕ := min (max ⌊x⌋ 0).toNat 4294967295

/-- Embeds the crop-rectangle arithmetic of `process_image`: origin
clamped at 0, size clamped into the source and forced up to at least 1,
then the origin re-clamped so the rectangle fits. Returns
`(crop_x, crop_y, crop_w, crop_h)` in source coordinates. -/
noncomputable def cropRect (src_w src_h : ℝ) (canvas_width canvas_height : ℕ)
    (zoom_level offset_x offset_y : ℝ) : ℝ × ℝ × ℝ × ℝ :=
  let cx0 := max (-offset_x / zoom_level) 0
  let cy0 := max (-offset_y / zoom_level) 0
  let cw0 := min ((canvas_width : ℝ) / zoom_level) (src_w - cx0)
  let ch0 := min ((canvas_height : ℝ) / zoom_level) (src_h - cy0)
  let cw1 := max cw0 1
  let ch1 := max ch0 1
  let cx1 := min cx0 (src_w - cw1)
  let cy1 := min cy0 (src_h - ch1)
  (cx1, cy1, cw1, ch1)

/-- The part of `process_image` after the decode-and-cache block: re-read
the cached original (the `ok_or` guard), compute the crop rectangle, crop,
resize and convert, then overwrite `IMAGE_DATA`. -/
noncomputable def process_image_rest (caps : Caps) (canvas_width canvas_height : ℕ)
    (zoom_level offset_x offset_y : ℝ) (st : CoreState) :
    CoreState × Except String Unit :=
  match st.original with
  | none => (st, Except.error "Original image not loaded")
  | some original =>
    let r := cropRect (original.width : ℝ) (original.height : ℝ)
      canvas_width canvas_height zoom_level offset_x offset_y
    let grid := caps.render original (realToU32 r.1) (realToU32 r.2.1)
      (realToU32 r.2.2.1) (realToU32 r.2.2.2) canvas_width canvas_height
    ({ st with imageData := some grid }, Except.ok ())

/-- Embeds `process_image`: decode and cache the bytes only when
`ORIGINAL_IMAGE` is empty (a decode failure returns before any state
write), then run the crop/resize/store pipeline on the cached image. -/
noncomputable def process_image (caps : Caps) (image_data : List ℕ)
    (canvas_width canvas_height : ℕ) (zoom_level offset_x offset_y : ℝ)
    (st : CoreState) : CoreState × Except String Unit :=
  match st.original with
  | none =>
    match caps.decode image_data with
    | Except.error e => (st, Except.error e)
    | Except.ok image =>
      process_image_rest caps canvas_width canvas_height zoom_level offset_x offset_y
        { st with original := some image }
  | some _ =>
    process_image_rest caps canvas_width canvas_height zoom_level offset_x offset_y st

/-- Embeds `generate_string_art`: fails when `IMAGE_DATA` is empty or the
pin list is empty (both before any mutation), otherwise runs the main loop
`num_lines` times from `current_pin_index = 0`, stores the mutated grid
back, and returns the chosen pin-index sequence. -/
def generate_string_art (pins : List (ℤ × ℤ)) (num_lines : ℕ) (st : CoreState) :
    CoreState × Except String (List ℕ) :=
  match st.imageData with
  | none => (st, Except.error "Image not loaded")
  | some image =>
    if pins.isEmpty then (st, Except.error "No pins provided")
    else
      let res := (planStep pins)^[num_lines] (image, 0, [])
      ({ st with imageData := some res.1 }, Except.ok res.2.2)

/-- Concrete 1 x 1 all-white grid (for the single-pin run). -/
def img1x1 : GrayImage := { width := 1, height := 1, data := [255] }

/-- Core state holding `img1x1` as the current grid. -/
def stOnePin : CoreState := { original := none, imageData := some img1x1 }

/-- Concrete 2 x 1 all-white grid. -/
def gridWhite : GrayImage := { width := 2, height := 1, data := [255, 255] }

/-- Core state holding `gridWhite`. -/
def stWhite : CoreState := { original := none, imageData := some gridWhite }

/-- Two pins on the white grid's corners. -/
def pinsTwo : List (ℤ × ℤ) := [(0, 0), (1, 0)]

/-- Concrete 3 x 3 grid with a black top row and a medium-dark left
column. -/
def gridDark : GrayImage :=
  { width := 3, height := 3, data := [0, 0, 0, 100, 255, 255, 100, 255, 255] }

/-- Core state holding `gridDark`. -/
def stDark : CoreState := { original := none, imageData := some gridDark }

/-- Three pins on the dark grid: origin, right corner, bottom corner. -/
def pinsThree : List (ℤ × ℤ) := [(0, 0), (2, 0), (0, 2)]

/-- Concrete 2 x 1 grid with one dark and one medium pixel (erasure
witness). -/
def imgTwo : GrayImage := { width := 2, height := 1, data := [0, 200] }

/-- A concrete decoded source image. -/
def srcImgEx : SourceImage := { width := 4, height := 4, pixels := [1, 2, 3] }

/-- The empty grid, used as a constant render result. -/
def gridZero : GrayImage := { width := 0, height := 0, data := [] }

/-- Capability record whose decoder always fails. -/
def capsFail : Caps :=
  { decode := fun _ => Except.error "decode failed", render := fun _ _ _ _ _ _ _ => gridZero }

/-- Capability record whose decoder always succeeds with `srcImgEx`. -/
def capsConst : Caps :=
  { decode := fun _ => Except.ok srcImgEx, render := fun _ _ _ _ _ _ _ => gridZero }

/-- Core state with nothing cached and no grid. -/
def stEmpty : CoreState := { original := none, imageData := none }

/-- Core state with a cached source image and no grid. -/
def stCached : CoreState := { original := some srcImgEx, imageData := none }

/- ------------------------------------------------------------------ -/
/- Theorems.                                                           -/
/- ------------------------------------------------------------------ -/

/-- C1, counterexample: `generate_pins` with a pin count of 0 does not
fail; at shape `Circle`, width 100, height 100 it returns `Ok` with the
empty pin sequence, so no `InvalidArgument` error is produced. -/
theorem C1_counterexample :
    generate_pins Shape.Circle 0 100 100 = Except.ok [] := by
  simp [generate_pins, generate_circular_pins]

/-- C1, amended: for every shape, width and height, calling
`generate_pins` with a pin count of 0 succeeds and returns the empty pin
sequence (the generation loops simply run zero times; there is no
`InvalidArgument` rejection in the code). -/
theorem C1_amended (shape : Shape) (width height : ℝ) :
    generate_pins shape 0 width height = Except.ok [] := by
  cases shape <;> simp [generate_pins, generate_circular_pins, generate_square_pins]

/-- C4: for every `num_pins >= 1`, the Circle layout returns exactly
`num_pins` pins, pin `i` being
`(width/2 + r * cos (2*pi*i/num_pins), height/2 + r * sin (2*pi*i/num_pins))`
with `r = min width height / 2` — evenly angularly spaced points on the
circle, deterministically. -/
theorem C4_circle_layout (num_pins : ℕ) (width height : ℝ) (hc : 1 ≤ num_pins) :
    (generate_circular_pins num_pins width height).length = num_pins ∧
    ∀ i, i < num_pins →
      (generate_circular_pins num_pins width height)[i]? =
        some { x := width / 2 + (min width height / 2) *
                 Real.cos (2 * Real.pi * i / num_pins),
               y := height / 2 + (min width height / 2) *
                 Real.sin (2 * Real.pi * i / num_pins) } := by
  have hmin : min (width / 2) (height / 2) = min width height / 2 :=
    min_div_div_right (by norm_num) width height
  refine ⟨?_, ?_⟩
  · rw [generate_circular_pins, List.length_map, List.length_range]
  · intro i hi
    rw [generate_circular_pins, List.getElem?_map, List.getElem?_range hi,
      Option.map_some', hmin]

/-- C4 witness: the theorem instantiated at one pin on a 2 x 2 canvas;
the single pin sits at angle 0, i.e. at `(1 + 1 * cos 0, 1 + 1 * sin 0)`. -/
theorem C4_circle_layout_witness :
    1 ≤ 1 ∧ (generate_circular_pins 1 2 2).length = 1 ∧
      (generate_circular_pins 1 2 2)[0]? =
        some { x := 2 / 2 + (min 2 2 / 2) * Real.cos (2 * Real.pi * (0 : ℕ) / (1 : ℕ)),
               y := 2 / 2 + (min 2 2 / 2) * Real.sin (2 * Real.pi * (0 : ℕ) / (1 : ℕ)) } :=
  ⟨le_refl 1, (C4_circle_layout 1 2 2 (le_refl 1)).1,
    (C4_circle_layout 1 2 2 (le_refl 1)).2 0 (by norm_num)⟩

/-- C5: for every `num_pins >= 1` (and positive width, used for the
corner case), the Square layout returns exactly `num_pins` pins, pin 0 is
exactly the top-left corner `(0, 0)`, and pin `i` is the clockwise
piecewise-linear boundary point at perimeter arc length
`2 * (width + height) * i / num_pins` (top, right, bottom, then left
edge). -/
theorem C5_square_layout (num_pins : ℕ) (width height : ℝ) (hc : 1 ≤ num_pins)
    (hw : 0 < width) :
    (generate_square_pins num_pins width height).length = num_pins ∧
    (generate_square_pins num_pins width height)[0]? = some { x := 0, y := 0 } ∧
    ∀ i, i < num_pins →
      (generate_square_pins num_pins width height)[i]? =
        some { x := (squareArcPoint width height (2 * (width + height) * i / num_pins)).1,
               y := (squareArcPoint width height (2 * (width + height) * i / num_pins)).2 } := by
  have hsap : ∀ d : ℝ,
      (if d < width then ({ x := d, y := 0 } : Pin)
       else if d < width + height then { x := width, y := d - width }
       else if d < 2 * width + height then { x := width - (d - width - height), y := height }
       else { x := 0, y := height - (d - 2 * width - height) }) =
      { x := (squareArcPoint width height d).1, y := (squareArcPoint width height d).2 } := by
    intro d
    unfold squareArcPoint
    split_ifs <;> rfl
  have key : ∀ i, i < num_pins →
      (generate_square_pins num_pins width height)[i]? =
        some { x := (squareArcPoint width height (2 * (width + height) * i / num_pins)).1,
               y := (squareArcPoint width height (2 * (width + height) * i / num_pins)).2 } := by
    intro i hi
    rw [generate_square_pins, List.getElem?_map, List.getElem?_range hi, Option.map_some',
      hsap]
  refine ⟨?_, ?_, key⟩
  · rw [generate_square_pins, List.length_map, List.length_range]
  have h0 := key 0 hc
  have harc : squareArcPoint width height (2 * (width + height) * (0 : ℕ) / num_pins) =
      (0, 0) := by
    have hd : 2 * (width + height) * ((0 : ℕ) : ℝ) / num_pins = 0 := by
      simp
    rw [hd]
    unfold squareArcPoint
    rw [if_pos hw]
  rw [h0, harc]

/-- C5 witness: the theorem instantiated at 4 pins on a 10 x 10 square;
pin 0 is the top-left corner and pin 1 sits at arc length 10 along the
boundary. -/
theorem C5_square_layout_witness :
    1 ≤ 4 ∧ (0 : ℝ) < 10 ∧
    (generate_square_pins 4 10 10).length = 4 ∧
    (generate_square_pins 4 10 10)[0]? = some { x := 0, y := 0 } ∧
    (generate_square_pins 4 10 10)[1]? =
      some { x := (squareArcPoint 10 10 (2 * (10 + 10) * (1 : ℕ) / (4 : ℕ))).1,
             y := (squareArcPoint 10 10 (2 * (10 + 10) * (1 : ℕ) / (4 : ℕ))).2 } :=
  ⟨by norm_num, by norm_num, (C5_square_layout 4 10 10 (by norm_num) (by norm_num)).1,
    (C5_square_layout 4 10 10 (by norm_num) (by norm_num)).2.1,
    (C5_square_layout 4 10 10 (by norm_num) (by norm_num)).2.2 1 (by norm_num)⟩

lemma candStep_self (img : GrayImage) (pins : List (ℤ × ℤ)) (current : ℕ) (st : ℕ × ℤ) :
    candStep img pins current st current = st := by
  simp [candStep]

lemma candStep_other (img : GrayImage) (pins : List (ℤ × ℤ)) (current : ℕ) (st : ℕ × ℤ)
    (i : ℕ) (h : i ≠ current) :
    candStep img pins current st i =
      if st.2 < (scoreOf img pins current i : ℤ) then (i, (scoreOf img pins current i : ℤ))
      else st := by
  simp [candStep, h]

/-- Invariant of the candidate scan: once some candidate other than
`current` has been seen, the running pair holds a best index that is a
real candidate, carries that candidate's score, dominates every candidate
seen so far, and strictly dominates every candidate of smaller index. -/
lemma selectBest_fold_spec (img : GrayImage) (pins : List (ℤ × ℤ)) (current : ℕ) :
    ∀ k : ℕ,
    ((∀ i, i < k → i = current) →
      (List.range k).foldl (candStep img pins current) (0, -1) = (0, -1)) ∧
    ((∃ i, i < k ∧ i ≠ current) →
      (((List.range k).foldl (candStep img pins current) (0, -1)).1 < k ∧
       ((List.range k).foldl (candStep img pins current) (0, -1)).1 ≠ current) ∧
      ((List.range k).foldl (candStep img pins current) (0, -1)).2 =
        (scoreOf img pins current
          ((List.range k).foldl (candStep img pins current) (0, -1)).1 : ℤ) ∧
      (∀ i, i < k → i ≠ current →
        (scoreOf img pins current i : ℤ) ≤
          ((List.range k).foldl (candStep img pins current) (0, -1)).2) ∧
      (∀ i, i < ((List.range k).foldl (candStep img pins current) (0, -1)).1 →
        i ≠ current →
        (scoreOf img pins current i : ℤ) <
          ((List.range k).foldl (candStep img pins current) (0, -1)).2)) := by
  intro k
  induction k with
  | zero =>
    exact ⟨fun _ => rfl, fun h => absurd h.choose_spec.1 (Nat.not_lt_zero _)⟩
  | succ k ih =>
    have hstep : (List.range (k + 1)).foldl (candStep img pins current) (0, -1) =
        candStep img pins current
          ((List.range k).foldl (candStep img pins current) (0, -1)) k := by
      rw [List.range_succ, List.foldl_append, List.foldl_cons, List.foldl_nil]
    by_cases hkc : k = current
    · subst hkc
      rw [hstep, candStep_self]
      constructor
      · intro hall
        exact ih.1 (fun i hik => hall i (Nat.lt_succ_of_lt hik))
      · rintro ⟨i, hik, hic⟩
        have hik' : i < k := by
          rcases Nat.lt_succ_iff_lt_or_eq.mp hik with h | h
          · exact h
          · exact absurd h hic
        obtain ⟨⟨h1, h2⟩, h3, h4, h5⟩ := ih.2 ⟨i, hik', hic⟩
        refine ⟨⟨Nat.lt_succ_of_lt h1, h2⟩, h3, ?_, h5⟩
        intro j hj hjc
        rcases Nat.lt_succ_iff_lt_or_eq.mp hj with h | h
        · exact h4 j h hjc
        · exact absurd h hjc
    · rw [hstep, candStep_other img pins current _ k hkc]
      by_cases hall : ∀ i, i < k → i = current
      · have hA := ih.1 hall
        rw [hA]
        have hlt : (((0 : ℕ), (-1 : ℤ)) : ℕ × ℤ).2 < (scoreOf img pins current k : ℤ) := by
          have := Int.natCast_nonneg (scoreOf img pins current k)
          omega
        rw [if_pos hlt]
        constructor
        · intro hall'
          exact absurd (hall' k (Nat.lt_succ_self k)) hkc
        · intro _
          refine ⟨⟨Nat.lt_succ_self k, hkc⟩, rfl, ?_, ?_⟩
          · intro j hj hjc
            rcases Nat.lt_succ_iff_lt_or_eq.mp hj with h | h
            · exact absurd (hall j h) hjc
            · subst h; exact le_refl _
          · intro j hj hjc
            exact absurd (hall j hj) hjc
      · have hex : ∃ i, i < k ∧ i ≠ current := by
          push_neg at hall
          obtain ⟨i, hi, hic⟩ := hall
          exact ⟨i, hi, hic⟩
        obtain ⟨⟨h1, h2⟩, h3, h4, h5⟩ := ih.2 hex
        constructor
        · intro hall'
          exact absurd (hall' k (Nat.lt_succ_self k)) hkc
        · intro _
          by_cases hrep :
              ((List.range k).foldl (candStep img pins current) (0, -1)).2 <
                (scoreOf img pins current k : ℤ)
          · rw [if_pos hrep]
            refine ⟨⟨Nat.lt_succ_self k, hkc⟩, rfl, ?_, ?_⟩
            · intro j hj hjc
              rcases Nat.lt_succ_iff_lt_or_eq.mp hj with h | h
              · exact le_of_lt (lt_of_le_of_lt (h4 j h hjc) hrep)
              · subst h; exact le_refl _
            · intro j hj hjc
              exact lt_of_le_of_lt (h4 j hj hjc) hrep
          · rw [if_neg hrep]
            refine ⟨⟨Nat.lt_succ_of_lt h1, h2⟩, h3, ?_, h5⟩
            intro j hj hjc
            rcases Nat.lt_succ_iff_lt_or_eq.mp hj with h | h
            · exact h4 j h hjc
            · subst h; exact le_of_not_lt hrep

/-- With at least two pins there is always a candidate, so the selected
index is a genuine argmax distinct from `current`, with ties resolved to
the lowest index. -/
lemma selectBest_spec (img : GrayImage) (pins : List (ℤ × ℤ)) (current : ℕ)
    (h2 : 2 ≤ pins.length) :
    ((selectBest img pins current).1 < pins.length ∧
     (selectBest img pins current).1 ≠ current) ∧
    (selectBest img pins current).2 =
      (scoreOf img pins current (selectBest img pins current).1 : ℤ) ∧
    (∀ i, i < pins.length → i ≠ current →
      (scoreOf img pins current i : ℤ) ≤ (selectBest img pins current).2) ∧
    (∀ i, i < (selectBest img pins current).1 → i ≠ current →
      (scoreOf img pins current i : ℤ) < (selectBest img pins current).2) := by
  have hex : ∃ i, i < pins.length ∧ i ≠ current := by
    by_cases h : current = 0
    · exact ⟨1, by omega, by omega⟩
    · exact ⟨0, by omega, fun h0 => h h0.symm⟩
  exact (selectBest_fold_spec img pins current pins.length).2 hex

/-- The main loop preserves: the path so far never repeats adjacently
starting from pin 0, and the loop's `current_pin_index` is the last
element of that extended path. -/
lemma planStep_iterate_chain (pins : List (ℤ × ℤ)) (h2 : 2 ≤ pins.length) :
    ∀ (n : ℕ) (img : GrayImage) (c : ℕ) (path : List ℕ),
      List.Chain' Ne (0 :: path) → (0 :: path).getLast? = some c →
      List.Chain' Ne (0 :: ((planStep pins)^[n] (img, c, path)).2.2) ∧
      (0 :: ((planStep pins)^[n] (img, c, path)).2.2).getLast? =
        some ((planStep pins)^[n] (img, c, path)).2.1 := by
  intro n
  induction n with
  | zero =>
    intro img c path hch hlast
    simpa using ⟨hch, hlast⟩
  | succ n ih =>
    intro img c path hch hlast
    rw [Function.iterate_succ_apply]
    have hb : (selectBest img pins c).1 ≠ c := (selectBest_spec img pins c h2).1.2
    have hstep : planStep pins (img, c, path) =
        (eraseLine img (walkGrid (pins.getD c (0, 0))
            (pins.getD (selectBest img pins c).1 (0, 0))),
          (selectBest img pins c).1, path ++ [(selectBest img pins c).1]) := rfl
    rw [hstep]
    apply ih
    · have : (0 : ℕ) :: (path ++ [(selectBest img pins c).1]) =
          ((0 : ℕ) :: path) ++ [(selectBest img pins c).1] := rfl
      rw [this, List.chain'_append]
      refine ⟨hch, List.chain'_singleton _, ?_⟩
      intro x hx y hy
      rw [hlast] at hx
      cases hx
      cases hy
      exact fun h => hb h.symm
    · have : (0 : ℕ) :: (path ++ [(selectBest img pins c).1]) =
          ((0 : ℕ) :: path) ++ [(selectBest img pins c).1] := rfl
      rw [this, List.getLast?_concat]

/-- C2, amended: for every pin sequence with at least two pins, whenever
`generate_string_art` returns a path, consecutive choices never repeat
and the first choice is not pin 0 — i.e. in every iteration the appended
pin index differs from the current pin index at the moment of choice.
(The claim as frozen, quantified over every non-empty pin sequence, fails
for single-pin sequences, where the scan has no candidate and the
initial `best_next_pin_index = 0 = current` is appended.) -/
theorem C2_no_self_loop (pins : List (ℤ × ℤ)) (num_lines : ℕ) (st st' : CoreState)
    (path : List ℕ) (h2 : 2 ≤ pins.length)
    (h : generate_string_art pins num_lines st = (st', Except.ok path)) :
    List.Chain' Ne (0 :: path) := by
  unfold generate_string_art at h
  cases him : st.imageData with
  | none => rw [him] at h; simp at h
  | some image =>
    rw [him] at h
    have hemp : pins.isEmpty = false := by
      cases hp : pins.isEmpty
      · rfl
      · rw [List.isEmpty_iff] at hp
        simp [hp] at h2
    simp only [hemp, Bool.false_eq_true, if_false] at h
    have hpath : ((planStep pins)^[num_lines] (image, 0, [])).2.2 = path := by
      have := congrArg Prod.snd h
      simpa using this
    have hmain := planStep_iterate_chain pins h2 num_lines image 0 []
      (List.chain'_singleton 0) rfl
    rw [hpath] at hmain
    exact hmain.1

/-- C2, counterexample to the frozen claim: with the non-empty single-pin
sequence `[(0,0)]` and one line, the planner appends pin 0 while the
current pin is 0 — the returned path `[0]` is a self-loop, so the
no-self-loop property fails for some non-empty pin sequence. -/
theorem C2_counterexample :
    (generate_string_art [(0, 0)] 1 stOnePin).2 = Except.ok [0] ∧
    ¬ List.Chain' Ne ((0 : ℕ) :: [0]) :=
  ⟨rfl, by simp [List.chain'_cons]⟩

/-- C2 witness: the amended theorem applied to the concrete two-pin white
run, whose path `[1]` indeed starts away from pin 0. -/
theorem C2_no_self_loop_witness :
    2 ≤ pinsTwo.length ∧ List.Chain' Ne ((0 : ℕ) :: [1]) :=
  ⟨by decide, C2_no_self_loop pinsTwo 1 stWhite
    (generate_string_art pinsTwo 1 stWhite).1 [1] (by decide) rfl⟩

lemma lineScore_foldl (img : GrayImage) :
    ∀ (pts : List (ℤ × ℤ)) (acc : ℕ),
      pts.foldl (fun acc p =>
        match get_pixel_checked img (intToU32 p.1) (intToU32 p.2) with
        | some v => acc + (255 - v.val)
        | none => acc) acc = acc + specScore img pts := by
  intro pts
  induction pts with
  | nil => intro acc; simp [specScore]
  | cons p pts ih =>
    intro acc
    rw [List.foldl_cons]
    cases hg : get_pixel_checked img (intToU32 p.1) (intToU32 p.2) with
    | none =>
      simp only [hg]
      rw [ih]
      simp [specScore, List.filterMap_cons, hg]
    | some v =>
      simp only [hg]
      rw [ih]
      simp only [specScore, List.filterMap_cons, hg, List.map_cons, List.sum_cons]
      exact Nat.add_assoc _ _ _

/-- The fold-accumulated score equals the spec's sum of `255 - intensity`
over the in-bounds visited pixels. -/
lemma lineScore_eq_specScore (img : GrayImage) (pts : List (ℤ × ℤ)) :
    lineScore img pts = specScore img pts := by
  rw [lineScore, lineScore_foldl]
  omega

/-- C3: in an iteration of the planning loop (with at least two pins, so
that candidates exist), the index appended to the path is exactly the
scan's selection; each candidate `j ≠ current` is scored as the sum of
`255 - intensity` over the in-bounds pixels of the walk from the current
pin to `j` with out-of-bounds pixels skipped; and the selection is the
argmax of that score over the candidates, where every candidate of lower
index than the winner scores strictly less (ascending scan replacing only
on strictly greater score — ties go to the lowest index). -/
theorem C3_scoring_and_argmax (img : GrayImage) (pins : List (ℤ × ℤ)) (current : ℕ)
    (path : List ℕ) (h2 : 2 ≤ pins.length) :
    (planStep pins (img, current, path)).2.2 = path ++ [(selectBest img pins current).1] ∧
    (∀ j, scoreOf img pins current j =
      specScore img (walkGrid (pins.getD current (0, 0)) (pins.getD j (0, 0)))) ∧
    ((selectBest img pins current).1 < pins.length ∧
      (selectBest img pins current).1 ≠ current) ∧
    (∀ j, j < pins.length → j ≠ current →
      scoreOf img pins current j ≤ scoreOf img pins current (selectBest img pins current).1) ∧
    (∀ j, j < (selectBest img pins current).1 → j ≠ current →
      scoreOf img pins current j < scoreOf img pins current (selectBest img pins current).1) := by
  obtain ⟨⟨hlt, hne⟩, hsc, hmax, hstrict⟩ := selectBest_spec img pins current h2
  refine ⟨rfl, ?_, ⟨hlt, hne⟩, ?_, ?_⟩
  · intro j
    exact lineScore_eq_specScore img _
  · intro j hj hjc
    have h := hmax j hj hjc
    rw [hsc] at h
    exact_mod_cast h
  · intro j hj hjc
    have h := hstrict j hj hjc
    rw [hsc] at h
    exact_mod_cast h

/-- C3 witness: the theorem at the concrete dark grid with three pins
from pin 0: the selected pin is pin 1 (score 765 beats pin 2's 565). -/
theorem C3_scoring_and_argmax_witness :
    2 ≤ pinsThree.length ∧
    (planStep pinsThree (gridDark, 0, [])).2.2 =
      [] ++ [(selectBest gridDark pinsThree 0).1] ∧
    ((selectBest gridDark pinsThree 0).1 < pinsThree.length ∧
      (selectBest gridDark pinsThree 0).1 ≠ 0) ∧
    scoreOf gridDark pinsThree 0 2 ≤
      scoreOf gridDark pinsThree 0 (selectBest gridDark pinsThree 0).1 :=
  ⟨by decide, (C3_scoring_and_argmax gridDark pinsThree 0 [] (by decide)).1,
    (C3_scoring_and_argmax gridDark pinsThree 0 [] (by decide)).2.2.1,
    (C3_scoring_and_argmax gridDark pinsThree 0 [] (by decide)).2.2.2.1 2 (by decide)
      (by decide)⟩

/-- C7: once a SourceImage is cached, `process_image` neither uses the
supplied bytes nor the decoder at all (the result is identical for any
bytes and any decoder), and the cached SourceImage is left unchanged in
the resulting state. -/
theorem C7_decode_memoized (caps : Caps) (bytes1 bytes2 : List ℕ)
    (cw ch : ℕ) (zoom ox oy : ℝ) (st : CoreState) (img : SourceImage)
    (hc : st.original = some img) :
    (∀ d2 : List ℕ → Except String SourceImage,
      process_image { decode := d2, render := caps.render } bytes2 cw ch zoom ox oy st =
        process_image caps bytes1 cw ch zoom ox oy st) ∧
    (process_image caps bytes1 cw ch zoom ox oy st).1.original = some img := by
  constructor
  · intro d2
    simp only [process_image, hc, process_image_rest]
  · simp only [process_image, hc, process_image_rest]

/-- C7 witness: with `srcImgEx` cached, running `process_image` with a
failing decoder and fresh bytes gives the same result as with the
original decoder and the original bytes, and the cache still holds
`srcImgEx`. -/
theorem C7_decode_memoized_witness :
    stCached.original = some srcImgEx ∧
    process_image { decode := capsFail.decode, render := capsConst.render }
        [9] 3 3 1 0 0 stCached =
      process_image capsConst [] 3 3 1 0 0 stCached ∧
    (process_image capsConst [] 3 3 1 0 0 stCached).1.original = some srcImgEx :=
  ⟨rfl,
    (C7_decode_memoized capsConst [] [9] 3 3 1 0 0 stCached srcImgEx rfl).1 capsFail.decode,
    (C7_decode_memoized capsConst [] [9] 3 3 1 0 0 stCached srcImgEx rfl).2⟩

/-- C8: both public state-changing operations fail atomically — whenever
`process_image` returns an error (only a decode failure can) the state,
grid included, is exactly the input state, and whenever
`generate_string_art` returns an error (no grid, or empty pin list) the
state is exactly the input state and no path is produced. -/
theorem C8_atomic_failure :
    (∀ (caps : Caps) (bytes : List ℕ) (cw ch : ℕ) (zoom ox oy : ℝ) (st : CoreState)
      (e : String),
      (process_image caps bytes cw ch zoom ox oy st).2 = Except.error e →
      (process_image caps bytes cw ch zoom ox oy st).1 = st) ∧
    (∀ (pins : List (ℤ × ℤ)) (num_lines : ℕ) (st : CoreState) (e : String),
      (generate_string_art pins num_lines st).2 = Except.error e →
      (generate_string_art pins num_lines st).1 = st) := by
  constructor
  · intro caps bytes cw ch zoom ox oy st e h
    cases ho : st.original with
    | none =>
      cases hd : caps.decode bytes with
      | error e2 => simp only [process_image, ho, hd]
      | ok image =>
        simp only [process_image, ho, hd, process_image_rest] at h
        exact Except.noConfusion h
    | some img =>
      simp only [process_image, ho, process_image_rest] at h
      exact Except.noConfusion h
  · intro pins num_lines st e h
    cases hi : st.imageData with
    | none => simp only [generate_string_art, hi]
    | some image =>
      cases hp : pins.isEmpty with
      | true => simp [generate_string_art, hi, hp]
      | false =>
        simp only [generate_string_art, hi, hp, Bool.false_eq_true, if_false] at h
        exact Except.noConfusion h

/-- C8 witness: the theorem at a failing decode on the empty state and at
a planning call with no grid present; both leave the state untouched. -/
theorem C8_atomic_failure_witness :
    (process_image capsFail [] 3 3 1 0 0 stEmpty).1 = stEmpty ∧
    (generate_string_art pinsTwo 1 stEmpty).1 = stEmpty :=
  ⟨C8_atomic_failure.1 capsFail [] 3 3 1 0 0 stEmpty "decode failed" rfl,
    C8_atomic_failure.2 pinsTwo 1 stEmpty "Image not loaded" rfl⟩

/-- C9, counterexample to the frozen claim: on the all-white 2 x 1 grid
with two pins, two successive `generate_string_art` calls with
`lineCount = 1` and no intervening `process_image` both return the path
`[1]` — the two path sequences are equal, not different (erasure saturates
at 255, so a white grid is a fixed point). -/
theorem C9_counterexample :
    (generate_string_art pinsTwo 1 stWhite).2 = Except.ok [1] ∧
    (generate_string_art pinsTwo 1 (generate_string_art pinsTwo 1 stWhite).1).2 =
      Except.ok [1] :=
  ⟨rfl, rfl⟩

/-- C9, amended: the erasure mutations left by one planning call persist
and can change the next call's result: there exist a grid state and a
non-empty pin set (the dark 3 x 3 grid with three pins) on which two
successive calls with `lineCount = 1` and no intervening `process_image`
produce two different path sequences (`[1]` then `[2]`). It does not hold
for every grid state, as the all-white counterexample shows. -/
theorem C9_amended :
    (generate_string_art pinsThree 1 stDark).2 = Except.ok [1] ∧
    (generate_string_art pinsThree 1 (generate_string_art pinsThree 1 stDark).1).2 =
      Except.ok [2] ∧
    (Except.ok [1] : Except String (List ℕ)) ≠ Except.ok [2] :=
  ⟨rfl, rfl, by simp⟩

/-- C10: once a SourceImage is cached, `process_image` always succeeds:
the crop width and height computed by `cropRect` are forced to at least 1
(by the `.max(1.0)` clamps) so no degenerate-crop failure exists, the call
returns `Ok`, and in general an error can only arise from decoding — an
error implies nothing was cached and the decoder failed with that very
error. -/
theorem C10_cached_never_fails (caps : Caps) (bytes : List ℕ) (cw ch : ℕ)
    (zoom ox oy : ℝ) (st : CoreState) (img : SourceImage)
    (hc : st.original = some img) (hz : 0 < zoom) :
    (1 ≤ (cropRect (img.width : ℝ) (img.height : ℝ) cw ch zoom ox oy).2.2.1 ∧
     1 ≤ (cropRect (img.width : ℝ) (img.height : ℝ) cw ch zoom ox oy).2.2.2) ∧
    (process_image caps bytes cw ch zoom ox oy st).2 = Except.ok () ∧
    (∀ (st2 : CoreState) (bytes2 : List ℕ) (e : String),
      (process_image caps bytes2 cw ch zoom ox oy st2).2 = Except.error e →
      st2.original = none ∧ caps.decode bytes2 = Except.error e) := by
  refine ⟨⟨?_, ?_⟩, ?_, ?_⟩
  · simp only [cropRect]
    exact le_max_right _ 1
  · simp only [cropRect]
    exact le_max_right _ 1
  · simp only [process_image, hc, process_image_rest]
  · intro st2 bytes2 e h
    cases ho : st2.original with
    | none =>
      cases hd : caps.decode bytes2 with
      | error e2 =>
        simp only [process_image, ho, hd] at h
        injection h with he
        subst he
        exact ⟨rfl, rfl⟩
      | ok image =>
        simp only [process_image, ho, hd, process_image_rest] at h
        exact Except.noConfusion h
    | some img2 =>
      simp only [process_image, ho, process_image_rest] at h
      exact Except.noConfusion h

/-- C10 witness: the theorem at the cached state `stCached` with zoom 1:
the crop dimensions are at least 1 and the call succeeds. -/
theorem C10_cached_never_fails_witness :
    stCached.original = some srcImgEx ∧ (0 : ℝ) < 1 ∧
    (1 ≤ (cropRect (srcImgEx.width : ℝ) (srcImgEx.height : ℝ) 3 3 1 0 0).2.2.1 ∧
     1 ≤ (cropRect (srcImgEx.width : ℝ) (srcImgEx.height : ℝ) 3 3 1 0 0).2.2.2) ∧
    (process_image capsConst [] 3 3 1 0 0 stCached).2 = Except.ok () :=
  ⟨rfl, by norm_num,
    (C10_cached_never_fails capsConst [] 3 3 1 0 0 stCached srcImgEx rfl (by norm_num)).1,
    (C10_cached_never_fails capsConst [] 3 3 1 0 0 stCached srcImgEx rfl (by norm_num)).2.1⟩

lemma walkAux_eq_nil (sx sy : ℤ) (nx ny : ℕ) (p : ℤ × ℤ) (ix iy : ℕ)
    (h : ¬(ix ≤ nx ∧ iy ≤ ny)) :
    ∀ fuel, walkAux sx sy nx ny fuel p ix iy = [] := by
  intro fuel
  cases fuel with
  | zero => rfl
  | succ fuel => rw [walkAux, if_neg h]

/-- Every point the walk visits from `(p, ix, iy)` is `p` displaced by
`sx * kx` in x and `sy * ky` in y for step counts that stay within the
budgets `nx`, `ny`. -/
lemma walkAux_mem_shape (sx sy : ℤ) (nx ny : ℕ) :
    ∀ (fuel : ℕ) (p : ℤ × ℤ) (ix iy : ℕ) (q : ℤ × ℤ),
      q ∈ walkAux sx sy nx ny fuel p ix iy →
      ∃ kx ky : ℕ, ix + kx ≤ nx ∧ iy + ky ≤ ny ∧
        q.1 = p.1 + sx * kx ∧ q.2 = p.2 + sy * ky := by
  intro fuel
  induction fuel with
  | zero => intro p ix iy q hq; exact absurd hq (List.not_mem_nil q)
  | succ fuel ih =>
    intro p ix iy q hq
    rw [walkAux] at hq
    by_cases hg : ix ≤ nx ∧ iy ≤ ny
    · rw [if_pos hg] at hq
      rcases List.mem_cons.mp hq with hq | hq
      · exact ⟨0, 0, by omega, by omega, by simp [hq], by simp [hq]⟩
      · by_cases hc : (2 * ix + 1) * ny < (2 * iy + 1) * nx
        · rw [if_pos hc] at hq
          obtain ⟨kx, ky, h1, h2, h3, h4⟩ := ih (p.1 + sx, p.2) (ix + 1) iy q hq
          exact ⟨kx + 1, ky, by omega, by omega,
            by rw [h3]; push_cast; ring, by rw [h4]⟩
        · rw [if_neg hc] at hq
          obtain ⟨kx, ky, h1, h2, h3, h4⟩ := ih (p.1, p.2 + sy) ix (iy + 1) q hq
          exact ⟨kx, ky + 1, by omega, by omega,
            by rw [h3], by rw [h4]; push_cast; ring⟩
    · rw [if_neg hg] at hq
      exact absurd hq (List.not_mem_nil q)

/-- Along the walk the linear functional `sx * x + sy * y` is strictly
increasing, provided the step signs are genuine units whenever the
corresponding budget is nonzero (as `walkGrid` guarantees). -/
lemma walkAux_pairwise (sx sy : ℤ) (nx ny : ℕ)
    (hx : nx ≠ 0 → sx = 1 ∨ sx = -1) (hy : ny ≠ 0 → sy = 1 ∨ sy = -1) :
    ∀ (fuel : ℕ) (p : ℤ × ℤ) (ix iy : ℕ),
      List.Pairwise (fun u v : ℤ × ℤ => sx * u.1 + sy * u.2 < sx * v.1 + sy * v.2)
        (walkAux sx sy nx ny fuel p ix iy) := by
  intro fuel
  induction fuel with
  | zero => intro p ix iy; exact List.Pairwise.nil
  | succ fuel ih =>
    intro p ix iy
    rw [walkAux]
    by_cases hg : ix ≤ nx ∧ iy ≤ ny
    · rw [if_pos hg]
      by_cases hc : (2 * ix + 1) * ny < (2 * iy + 1) * nx
      · rw [if_pos hc]
        refine List.Pairwise.cons ?_ (ih (p.1 + sx, p.2) (ix + 1) iy)
        intro q hq
        obtain ⟨kx, ky, _, _, h3, h4⟩ :=
          walkAux_mem_shape sx sy nx ny fuel (p.1 + sx, p.2) (ix + 1) iy q hq
        have hnx : nx ≠ 0 := by
          intro h0
          rw [h0] at hc
          omega
        have hsx : sx * sx = 1 := by rcases hx hnx with h | h <;> rw [h] <;> ring
        have hkx : (0 : ℤ) ≤ sx * sx * kx :=
          mul_nonneg (mul_self_nonneg sx) (Int.natCast_nonneg kx)
        have hky : (0 : ℤ) ≤ sy * sy * ky :=
          mul_nonneg (mul_self_nonneg sy) (Int.natCast_nonneg ky)
        have hq1 : sx * q.1 + sy * q.2 =
            sx * p.1 + sy * p.2 + sx * sx + (sx * sx * kx + sy * sy * ky) := by
          rw [h3, h4]; ring
        rw [hq1, hsx]
        omega
      · rw [if_neg hc]
        by_cases hny : ny = 0
        · have hnil : walkAux sx sy nx ny fuel (p.1, p.2 + sy) ix (iy + 1) = [] := by
            apply walkAux_eq_nil
            omega
          rw [hnil]
          exact List.pairwise_singleton _ _
        · refine List.Pairwise.cons ?_ (ih (p.1, p.2 + sy) ix (iy + 1))
          intro q hq
          obtain ⟨kx, ky, _, _, h3, h4⟩ :=
            walkAux_mem_shape sx sy nx ny fuel (p.1, p.2 + sy) ix (iy + 1) q hq
          have hsy : sy * sy = 1 := by rcases hy hny with h | h <;> rw [h] <;> ring
          have hkx : (0 : ℤ) ≤ sx * sx * kx :=
            mul_nonneg (mul_self_nonneg sx) (Int.natCast_nonneg kx)
          have hky : (0 : ℤ) ≤ sy * sy * ky :=
            mul_nonneg (mul_self_nonneg sy) (Int.natCast_nonneg ky)
          have hq1 : sx * q.1 + sy * q.2 =
              sx * p.1 + sy * p.2 + sy * sy + (sx * sx * kx + sy * sy * ky) := by
            rw [h3, h4]; ring
          rw [hq1, hsy]
          omega
    · rw [if_neg hg]
      exact List.Pairwise.nil

/-- The grid walk never visits the same point twice. -/
lemma walkGrid_nodup (a b : ℤ × ℤ) : (walkGrid a b).Nodup := by
  have hx : (b.1 - a.1).natAbs ≠ 0 → (b.1 - a.1).sign = 1 ∨ (b.1 - a.1).sign = -1 := by
    intro h
    rcases lt_trichotomy (b.1 - a.1) 0 with hlt | heq | hgt
    · exact Or.inr (Int.sign_eq_neg_one_iff_neg.mpr hlt)
    · exact absurd (by rw [heq]; rfl) h
    · exact Or.inl (Int.sign_eq_one_iff_pos.mpr hgt)
  have hy : (b.2 - a.2).natAbs ≠ 0 → (b.2 - a.2).sign = 1 ∨ (b.2 - a.2).sign = -1 := by
    intro h
    rcases lt_trichotomy (b.2 - a.2) 0 with hlt | heq | hgt
    · exact Or.inr (Int.sign_eq_neg_one_iff_neg.mpr hlt)
    · exact absurd (by rw [heq]; rfl) h
    · exact Or.inl (Int.sign_eq_one_iff_pos.mpr hgt)
  have hp := walkAux_pairwise (b.1 - a.1).sign (b.2 - a.2).sign
    (b.1 - a.1).natAbs (b.2 - a.2).natAbs hx hy
    ((b.1 - a.1).natAbs + (b.2 - a.2).natAbs + 1) a 0 0
  refine List.Pairwise.imp ?_ hp
  intro u v huv heq
  rw [heq] at huv
  exact lt_irrefl _ huv

/-- Every walk point lies in the axis-aligned box spanned by the two
endpoints. -/
lemma walkGrid_mem_box (a b : ℤ × ℤ) (q : ℤ × ℤ) (hq : q ∈ walkGrid a b) :
    (min a.1 b.1 ≤ q.1 ∧ q.1 ≤ max a.1 b.1) ∧
    (min a.2 b.2 ≤ q.2 ∧ q.2 ≤ max a.2 b.2) := by
  obtain ⟨kx, ky, h1, h2, h3, h4⟩ := walkAux_mem_shape (b.1 - a.1).sign (b.2 - a.2).sign
    (b.1 - a.1).natAbs (b.2 - a.2).natAbs
    ((b.1 - a.1).natAbs + (b.2 - a.2).natAbs + 1) a 0 0 q hq
  constructor
  · rcases lt_trichotomy (b.1 - a.1) 0 with hlt | heq | hgt
    · rw [Int.sign_eq_neg_one_iff_neg.mpr hlt] at h3
      have : (kx : ℤ) ≤ ((b.1 - a.1).natAbs : ℤ) := by
        exact_mod_cast (show kx ≤ (b.1 - a.1).natAbs by omega)
      have habs : ((b.1 - a.1).natAbs : ℤ) = -(b.1 - a.1) := by omega
      constructor <;> omega
    · rw [heq] at h3
      simp only [Int.sign_zero, zero_mul, add_zero] at h3
      constructor <;> omega
    · rw [Int.sign_eq_one_iff_pos.mpr hgt] at h3
      have : (kx : ℤ) ≤ ((b.1 - a.1).natAbs : ℤ) := by
        exact_mod_cast (show kx ≤ (b.1 - a.1).natAbs by omega)
      have habs : ((b.1 - a.1).natAbs : ℤ) = b.1 - a.1 := by omega
      constructor <;> omega
  · rcases lt_trichotomy (b.2 - a.2) 0 with hlt | heq | hgt
    · rw [Int.sign_eq_neg_one_iff_neg.mpr hlt] at h4
      have : (ky : ℤ) ≤ ((b.2 - a.2).natAbs : ℤ) := by
        exact_mod_cast (show ky ≤ (b.2 - a.2).natAbs by omega)
      have habs : ((b.2 - a.2).natAbs : ℤ) = -(b.2 - a.2) := by omega
      constructor <;> omega
    · rw [heq] at h4
      simp only [Int.sign_zero, zero_mul, add_zero] at h4
      constructor <;> omega
    · rw [Int.sign_eq_one_iff_pos.mpr hgt] at h4
      have : (ky : ℤ) ≤ ((b.2 - a.2).natAbs : ℤ) := by
        exact_mod_cast (show ky ≤ (b.2 - a.2).natAbs by omega)
      have habs : ((b.2 - a.2).natAbs : ℤ) = b.2 - a.2 := by omega
      constructor <;> omega

lemma intToU32_of_nonneg (z : ℤ) (h0 : 0 ≤ z) (h1 : z < 4294967296) :
    intToU32 z = z.toNat := by
  unfold intToU32
  omega

lemma intToU32_inj (u v : ℤ) (hu1 : -2147483648 ≤ u) (hu2 : u < 2147483648)
    (hv1 : -2147483648 ≤ v) (hv2 : v < 2147483648)
    (h : intToU32 u = intToU32 v) : u = v := by
  unfold intToU32 at h
  omega

lemma get_pixel_checked_some (img : GrayImage) (x y : ℕ) (v : U8)
    (h : get_pixel_checked img x y = some v) : x < img.width ∧ y < img.height := by
  unfold get_pixel_checked at h
  by_cases hb : x < img.width ∧ y < img.height
  · exact hb
  · rw [if_neg hb] at h
    exact Option.noConfusion h

lemma idx_inj (w x x' y y' : ℕ) (hx : x < w) (hx' : x' < w)
    (h : y * w + x = y' * w + x') : x = x' ∧ y = y' := by
  have hw : 0 < w := lt_of_le_of_lt (Nat.zero_le x) hx
  have hxx : x = x' := by
    have e1 : (y * w + x) % w = x := by
      rw [Nat.mul_comm, Nat.mul_add_mod]; exact Nat.mod_eq_of_lt hx
    have e2 : (y' * w + x') % w = x' := by
      rw [Nat.mul_comm, Nat.mul_add_mod]; exact Nat.mod_eq_of_lt hx'
    rw [← e1, h, e2]
  refine ⟨hxx, ?_⟩
  apply Nat.eq_of_mul_eq_mul_right hw
  omega

lemma idx_lt (w h x y : ℕ) (hx : x < w) (hy : y < h) : y * w + x < w * h :=
  calc y * w + x < y * w + w := by omega
    _ = (y + 1) * w := by ring
    _ ≤ h * w := Nat.mul_le_mul_right w hy
    _ = w * h := Nat.mul_comm h w

lemma set_pixel_checked_width (im : GrayImage) (x y : ℕ) (v : U8) :
    (set_pixel_checked im x y v).width = im.width := by
  unfold set_pixel_checked
  split <;> rfl

lemma set_pixel_checked_height (im : GrayImage) (x y : ℕ) (v : U8) :
    (set_pixel_checked im x y v).height = im.height := by
  unfold set_pixel_checked
  split <;> rfl

lemma set_pixel_checked_length (im : GrayImage) (x y : ℕ) (v : U8) :
    (set_pixel_checked im x y v).data.length = im.data.length := by
  unfold set_pixel_checked
  split
  · exact List.length_set im.data _ v
  · rfl

lemma eraseStep_width (im : GrayImage) (p : ℤ × ℤ) : (eraseStep im p).width = im.width := by
  unfold eraseStep
  cases hg : get_pixel_checked im (intToU32 p.1) (intToU32 p.2) with
  | none => rfl
  | some v => exact set_pixel_checked_width im _ _ _

lemma eraseStep_height (im : GrayImage) (p : ℤ × ℤ) :
    (eraseStep im p).height = im.height := by
  unfold eraseStep
  cases hg : get_pixel_checked im (intToU32 p.1) (intToU32 p.2) with
  | none => rfl
  | some v => exact set_pixel_checked_height im _ _ _

lemma eraseStep_length (im : GrayImage) (p : ℤ × ℤ) :
    (eraseStep im p).data.length = im.data.length := by
  unfold eraseStep
  cases hg : get_pixel_checked im (intToU32 p.1) (intToU32 p.2) with
  | none => rfl
  | some v => exact set_pixel_checked_length im _ _ _

lemma eraseLine_width : ∀ (pts : List (ℤ × ℤ)) (im : GrayImage),
    (eraseLine im pts).width = im.width := by
  intro pts
  induction pts with
  | nil => intro im; rfl
  | cons p pts ih =>
    intro im
    have : eraseLine im (p :: pts) = eraseLine (eraseStep im p) pts := rfl
    rw [this, ih, eraseStep_width]

lemma eraseLine_height : ∀ (pts : List (ℤ × ℤ)) (im : GrayImage),
    (eraseLine im pts).height = im.height := by
  intro pts
  induction pts with
  | nil => intro im; rfl
  | cons p pts ih =>
    intro im
    have : eraseLine im (p :: pts) = eraseLine (eraseStep im p) pts := rfl
    rw [this, ih, eraseStep_height]

lemma eraseLine_length : ∀ (pts : List (ℤ × ℤ)) (im : GrayImage),
    (eraseLine im pts).data.length = im.data.length := by
  intro pts
  induction pts with
  | nil => intro im; rfl
  | cons p pts ih =>
    intro im
    have : eraseLine im (p :: pts) = eraseLine (eraseStep im p) pts := rfl
    rw [this, ih, eraseStep_length]

lemma eraseStep_get_ne (im : GrayImage) (q : ℤ × ℤ) (x y : ℕ)
    (hx : x < im.width)
    (hne : ¬(intToU32 q.1 = x ∧ intToU32 q.2 = y)) :
    (eraseStep im q).data[y * im.width + x]? = im.data[y * im.width + x]? := by
  cases hg : get_pixel_checked im (intToU32 q.1) (intToU32 q.2) with
  | none =>
    have hred : eraseStep im q = im := by unfold eraseStep; rw [hg]
    rw [hred]
  | some v =>
    obtain ⟨hqx, hqy⟩ := get_pixel_checked_some im _ _ v hg
    have hred : eraseStep im q =
        set_pixel_checked im (intToU32 q.1) (intToU32 q.2) (erasePixel v) := by
      unfold eraseStep; rw [hg]
    rw [hred]
    unfold set_pixel_checked
    rw [if_pos ⟨hqx, hqy⟩]
    apply List.getElem?_set_ne
    intro he
    obtain ⟨hx1, hy1⟩ := idx_inj im.width _ _ _ _ hqx hx he
    exact hne ⟨hx1, hy1⟩

lemma eraseLine_get_not_mem (x y : ℕ) :
    ∀ (pts : List (ℤ × ℤ)) (im : GrayImage), x < im.width →
      (∀ q ∈ pts, ¬(intToU32 q.1 = x ∧ intToU32 q.2 = y)) →
      (eraseLine im pts).data[y * im.width + x]? = im.data[y * im.width + x]? := by
  intro pts
  induction pts with
  | nil => intro im _ _; rfl
  | cons q pts ih =>
    intro im hx hall
    have hq := hall q (List.mem_cons_self q pts)
    have hstep := eraseStep_get_ne im q x y hx hq
    have hfold : eraseLine im (q :: pts) = eraseLine (eraseStep im q) pts := rfl
    rw [hfold]
    have hw := eraseStep_width im q
    have hrec := ih (eraseStep im q) (by rw [hw]; exact hx)
      (fun r hr => hall r (List.mem_cons_of_mem q hr))
    rw [hw] at hrec
    rw [hrec, hstep]

/-- The value at the unique hit position after erasing a walk that visits
it exactly once (no other point of the list maps to the same pixel). -/
lemma eraseLine_hit (img : GrayImage) (hwf : img.data.length = img.width * img.height)
    (l₁ l₂ : List (ℤ × ℤ)) (p : ℤ × ℤ) (x y : ℕ)
    (hx : x < img.width) (hy : y < img.height)
    (hpx : intToU32 p.1 = x) (hpy : intToU32 p.2 = y)
    (h1 : ∀ q ∈ l₁, ¬(intToU32 q.1 = x ∧ intToU32 q.2 = y))
    (h2 : ∀ q ∈ l₂, ¬(intToU32 q.1 = x ∧ intToU32 q.2 = y)) :
    (eraseLine img (l₁ ++ p :: l₂)).data[y * img.width + x]? =
      (img.data[y * img.width + x]?).map erasePixel := by
  have hfold : eraseLine img (l₁ ++ p :: l₂) =
      eraseLine (eraseStep (eraseLine img l₁) p) l₂ := by
    rw [eraseLine, List.foldl_append, List.foldl_cons]
    rfl
  have hw1 : (eraseLine img l₁).width = img.width := eraseLine_width l₁ img
  have hh1 : (eraseLine img l₁).height = img.height := eraseLine_height l₁ img
  have hl1 : (eraseLine img l₁).data.length = img.data.length := eraseLine_length l₁ img
  have hidx : y * img.width + x < img.data.length := by
    rw [hwf]; exact idx_lt img.width img.height x y hx hy
  have hval : (eraseLine img l₁).data[y * img.width + x]? =
      img.data[y * img.width + x]? :=
    eraseLine_get_not_mem x y l₁ img hx h1
  obtain ⟨v, hv⟩ : ∃ v, img.data[y * img.width + x]? = some v :=
    ⟨img.data.get ⟨y * img.width + x, hidx⟩, List.getElem?_eq_getElem hidx⟩
  have hgp : get_pixel_checked (eraseLine img l₁) (intToU32 p.1) (intToU32 p.2) =
      some v := by
    rw [hpx, hpy]
    unfold get_pixel_checked
    rw [if_pos ⟨by rw [hw1]; exact hx, by rw [hh1]; exact hy⟩, hw1, hval, hv]
  have hstep : eraseStep (eraseLine img l₁) p =
      set_pixel_checked (eraseLine img l₁) x y (erasePixel v) := by
    unfold eraseStep
    rw [hgp, hpx, hpy]
  have hset : (set_pixel_checked (eraseLine img l₁) x y
      (erasePixel v)).data[y * img.width + x]? = some (erasePixel v) := by
    unfold set_pixel_checked
    rw [if_pos ⟨by rw [hw1]; exact hx, by rw [hh1]; exact hy⟩, hw1]
    exact List.getElem?_set_eq (by rw [hl1]; exact hidx)
  have hrest := eraseLine_get_not_mem x y l₂
    (eraseStep (eraseLine img l₁) p)
    (by rw [eraseStep_width, hw1]; exact hx) h2
  rw [eraseStep_width, hw1] at hrest
  rw [hfold, hrest, hstep, hset, hv]
  rfl

/-- C6: erasing the winning segment's grid-walk changes exactly the
in-bounds visited pixels, each by `v := min (v + 150) 255` (add 150,
saturate at 255), leaves every other grid pixel and the grid dimensions
unchanged, and is numerically safe: the u16 sum `v + 150` stays below
2^16 (no wraparound) and the stored value never exceeds 255, so iterated
erasure keeps all intensities within `[0, 255]`. The hypotheses record
the i32 typing of the walk endpoints and the u32 typing of the canvas. -/
theorem C6_erasure (img : GrayImage) (a b : ℤ × ℤ)
    (hwf : img.data.length = img.width * img.height)
    (hw : img.width ≤ 2147483648) (hh : img.height ≤ 2147483648)
    (ha1 : -2147483648 ≤ a.1 ∧ a.1 < 2147483648)
    (ha2 : -2147483648 ≤ a.2 ∧ a.2 < 2147483648)
    (hb1 : -2147483648 ≤ b.1 ∧ b.1 < 2147483648)
    (hb2 : -2147483648 ≤ b.2 ∧ b.2 < 2147483648) :
    ((eraseLine img (walkGrid a b)).width = img.width ∧
     (eraseLine img (walkGrid a b)).height = img.height) ∧
    (∀ p ∈ walkGrid a b, 0 ≤ p.1 → 0 ≤ p.2 →
      p.1.toNat < img.width → p.2.toNat < img.height →
      (eraseLine img (walkGrid a b)).data[p.2.toNat * img.width + p.1.toNat]? =
        (img.data[p.2.toNat * img.width + p.1.toNat]?).map erasePixel) ∧
    (∀ x y : ℕ, x < img.width → y < img.height →
      (∀ p ∈ walkGrid a b, ¬(p.1 = (x : ℤ) ∧ p.2 = (y : ℤ))) →
      (eraseLine img (walkGrid a b)).data[y * img.width + x]? =
        img.data[y * img.width + x]?) ∧
    (∀ v : U8, (erasePixel v).val = min (v.val + 150) 255 ∧
      v.val + 150 < 65536 ∧ (erasePixel v).val ≤ 255) := by
  have hr : ∀ q ∈ walkGrid a b,
      (-2147483648 ≤ q.1 ∧ q.1 < 2147483648) ∧
      (-2147483648 ≤ q.2 ∧ q.2 < 2147483648) := by
    intro q hq
    obtain ⟨⟨h1, h2⟩, h3, h4⟩ := walkGrid_mem_box a b q hq
    obtain ⟨ha1l, ha1r⟩ := ha1
    obtain ⟨ha2l, ha2r⟩ := ha2
    obtain ⟨hb1l, hb1r⟩ := hb1
    obtain ⟨hb2l, hb2r⟩ := hb2
    constructor <;> constructor <;> omega
  refine ⟨⟨eraseLine_width _ img, eraseLine_height _ img⟩, ?_, ?_, ?_⟩
  · intro p hp hp1 hp2 hpw hph
    obtain ⟨l₁, l₂, hdec⟩ := List.mem_iff_append.mp hp
    have hnd := walkGrid_nodup a b
    rw [hdec, List.nodup_append] at hnd
    obtain ⟨hnd1, hnd2, hdisj⟩ := hnd
    have hpl2 : p ∉ l₂ := (List.nodup_cons.mp hnd2).1
    have hprange := hr p hp
    have hpx : intToU32 p.1 = p.1.toNat := intToU32_of_nonneg p.1 hp1 (by omega)
    have hpy : intToU32 p.2 = p.2.toNat := intToU32_of_nonneg p.2 hp2 (by omega)
    have huniq : ∀ q ∈ walkGrid a b, q ≠ p →
        ¬(intToU32 q.1 = p.1.toNat ∧ intToU32 q.2 = p.2.toNat) := by
      rintro q hq hne ⟨hq1, hq2⟩
      have hqr := hr q hq
      have e1 : q.1 = p.1 := intToU32_inj q.1 p.1 hqr.1.1 hqr.1.2 hprange.1.1 hprange.1.2
        (by rw [hq1, hpx])
      have e2 : q.2 = p.2 := intToU32_inj q.2 p.2 hqr.2.1 hqr.2.2 hprange.2.1 hprange.2.2
        (by rw [hq2, hpy])
      exact hne (Prod.ext e1 e2)
    have h1 : ∀ q ∈ l₁, ¬(intToU32 q.1 = p.1.toNat ∧ intToU32 q.2 = p.2.toNat) := by
      intro q hq
      refine huniq q (by rw [hdec]; exact List.mem_append_left _ hq) ?_
      intro he
      exact hdisj hq (he ▸ List.mem_cons_self p l₂)
    have h2 : ∀ q ∈ l₂, ¬(intToU32 q.1 = p.1.toNat ∧ intToU32 q.2 = p.2.toNat) := by
      intro q hq
      refine huniq q
        (by rw [hdec]; exact List.mem_append_right _ (List.mem_cons_of_mem p hq)) ?_
      intro he
      exact hpl2 (he ▸ hq)
    rw [hdec]
    exact eraseLine_hit img hwf l₁ l₂ p p.1.toNat p.2.toNat hpw hph hpx hpy h1 h2
  · intro x y hx hy hnone
    apply eraseLine_get_not_mem x y (walkGrid a b) img hx
    rintro q hq ⟨hq1, hq2⟩
    have hqr := hr q hq
    have hxe : intToU32 (x : ℤ) = x := by
      rw [intToU32_of_nonneg (x : ℤ) (Int.natCast_nonneg x) (by omega)]
      exact Int.toNat_natCast x
    have hye : intToU32 (y : ℤ) = y := by
      rw [intToU32_of_nonneg (y : ℤ) (Int.natCast_nonneg y) (by omega)]
      exact Int.toNat_natCast y
    have e1 : q.1 = (x : ℤ) := intToU32_inj q.1 x hqr.1.1 hqr.1.2
      (by omega) (by omega) (by rw [hq1, hxe])
    have e2 : q.2 = (y : ℤ) := intToU32_inj q.2 y hqr.2.1 hqr.2.2
      (by omega) (by omega) (by rw [hq2, hye])
    exact hnone q hq ⟨e1, e2⟩
  · intro v
    have hv := v.isLt
    refine ⟨?_, by omega, ?_⟩
    · show min ((v.val + 150) % 65536) 255 = min (v.val + 150) 255
      omega
    · show min ((v.val + 150) % 65536) 255 ≤ 255
      omega

/-- C6 witness: erasing the walk of `(0,0) -> (1,0)` on the concrete
2 x 1 grid `[0, 200]` maps pixel 0 through `erasePixel` (0 becomes 150). -/
theorem C6_erasure_witness :
    imgTwo.data.length = imgTwo.width * imgTwo.height ∧
    ((0 : ℤ), (0 : ℤ)) ∈ walkGrid (0, 0) (1, 0) ∧
    (eraseLine imgTwo (walkGrid (0, 0) (1, 0))).data[0]? =
      (imgTwo.data[0]?).map erasePixel :=
  ⟨rfl, by decide,
    (C6_erasure imgTwo (0, 0) (1, 0) rfl (by norm_num [imgTwo]) (by norm_num [imgTwo])
      ⟨by norm_num, by norm_num⟩ ⟨by norm_num, by norm_num⟩
      ⟨by norm_num, by norm_num⟩ ⟨by norm_num, by norm_num⟩).2.1
      ((0 : ℤ), (0 : ℤ)) (by decide) (by norm_num) (by norm_num) (by decide) (by decide)⟩

end StringArt
